import Mathlib

/-!
Shallow embedding of the robot REST API core (Go sources: models.go,
storage.go, handlers.go).  Machine integers are modelled as `Int` with
Go's truncating division written `Int.tdiv`, and with an explicit
two's-complement wrap (`wrap64`) where 64-bit overflow matters (the
pagination index arithmetic); the in-memory robot map is
an association list updated at the first matching key; the world item
map (`map[string]bool`, a set) is a `Finset String`.  The `time.Time`
field of actions is irrelevant to every property treated here and is
omitted.  Go handlers mutate robots through pointers held by the map:
every field assignment is therefore modelled as a store update, and
reads after a mutation go through the store again (this is what makes
attacker/target aliasing in `AttackRobot` observable).
-/

namespace RobotAPI

/-- models.go: `Position` (two Go `int` coordinates). -/
structure Position where
  x : Int
  y : Int
deriving DecidableEq, Repr

/-- models.go: `Action` minus its timestamp (type tag and detail string). -/
structure Action where
  type : String
  details : String
deriving DecidableEq, Repr

/-- models.go: `Robot`. -/
structure Robot where
  id : String
  position : Position
  direction : String
  energy : Int
  inventory : List String
  actions : List Action
deriving DecidableEq, Repr

/-- models.go: `MoveRequest`. -/
structure MoveRequest where
  direction : String
deriving DecidableEq, Repr

/-- models.go: `StateUpdateRequest` (`*int` / `*Position` optional fields). -/
structure StateUpdateRequest where
  energy : Option Int
  position : Option Position
deriving DecidableEq, Repr

/-- models.go: `Link`. -/
structure Link where
  rel : String
  href : String
deriving DecidableEq, Repr

/-- models.go: `PageInfo`. -/
structure PageInfo where
  number : Int
  size : Int
  totalElements : Int
  totalPages : Int
  hasNext : Bool
  hasPrevious : Bool
deriving DecidableEq, Repr

/-- models.go: `PaginatedActions` (per-entry HATEOAS self links, which carry
only transport data, are dropped; the entries themselves are kept). -/
structure PaginatedActions where
  page : PageInfo
  actions : List Action
  links : List Link
deriving DecidableEq, Repr

/-- Error taxonomy of the handlers (spec section 7): 404 robot/item lookups
are `notFound`, the bad-direction 400 is `invalidArgument`, the
putdown-without-item 400 is `preconditionFailed`. -/
inductive Err where
  | notFound
  | invalidArgument
  | preconditionFailed
deriving DecidableEq, Repr

/-- storage.go: `RobotStorage`.  `robots` is the keyed robot map (Go maps
have unique keys; updates replace the value at the key), `items` the
world-available set (`map[string]bool` where presence means available). -/
structure Store where
  robots : List (String × Robot)
  items : Finset String
deriving DecidableEq

/-- storage.go `GetRobot`: map lookup (first matching key). -/
def getRobot (s : Store) (id : String) : Option Robot :=
  (s.robots.find? (fun p => p.1 = id)).map (·.2)

/-- Update the robot stored under `id` (the Go handlers mutate the robot
record through the pointer held by the map, and `SaveRobot` re-inserts the
same pointer, so a field assignment is exactly an update of the map value at
that key). -/
def setRobotList (rs : List (String × Robot)) (id : String) (f : Robot → Robot) :
    List (String × Robot) :=
  match rs with
  | [] => []
  | p :: t => if p.1 = id then (p.1, f p.2) :: t else p :: setRobotList t id f

/-- Store-level robot update at a key. -/
def setRobot (s : Store) (id : String) (f : Robot → Robot) : Store :=
  { s with robots := setRobotList s.robots id f }

/-- storage.go `AddAction`: append one action entry to the robot's log. -/
def addAction (s : Store) (id : String) (ty details : String) : Store :=
  setRobot s id (fun r => { r with actions := r.actions ++ [⟨ty, details⟩] })

/-- handlers.go `MoveRobot`, the direction switch: up/down/left/right map to
unit vectors, anything else is invalid. -/
def dirDelta (d : String) : Option (Int × Int) :=
  if d = "up" then some (0, 1)
  else if d = "down" then some (0, -1)
  else if d = "left" then some (-1, 0)
  else if d = "right" then some (1, 0)
  else none

/-- handlers.go `MoveRobot`: fetch, validate direction, shift position,
append one "move" entry.  Error paths leave the store untouched. -/
def moveRobot (s : Store) (id : String) (req : MoveRequest) :
    Store × Except Err Unit :=
  match getRobot s id with
  | none => (s, .error .notFound)
  | some _ =>
    match dirDelta req.direction with
    | none => (s, .error .invalidArgument)
    | some d =>
      let s1 := setRobot s id (fun r =>
        { r with position := ⟨r.position.x + d.1, r.position.y + d.2⟩ })
      let s2 := addAction s1 id "move" ("Moved " ++ req.direction)
      (s2, .ok ())

/-- handlers.go `PickupItem`: fetch robot, require the item available in the
world, append it to the inventory, remove it from the world, log "pickup". -/
def pickupItem (s : Store) (id itemID : String) : Store × Except Err Unit :=
  match getRobot s id with
  | none => (s, .error .notFound)
  | some _ =>
    if itemID ∈ s.items then
      let s1 := setRobot s id (fun r =>
        { r with inventory := r.inventory ++ [itemID] })
      let s2 := { s1 with items := s1.items.erase itemID }
      let s3 := addAction s2 id "pickup" ("Picked up item " ++ itemID)
      (s3, .ok ())
    else (s, .error .notFound)

/-- handlers.go `PutdownItem`: the Go loop keeps every inventory entry
different from `itemID` (so it removes all occurrences) and records whether
any occurrence was seen; without one the request fails before any mutation. -/
def putdownItem (s : Store) (id itemID : String) : Store × Except Err Unit :=
  match getRobot s id with
  | none => (s, .error .notFound)
  | some robot =>
    let newInventory := robot.inventory.filter (fun x => x ≠ itemID)
    if itemID ∈ robot.inventory then
      let s1 := setRobot s id (fun r => { r with inventory := newInventory })
      let s2 := { s1 with items := insert itemID s1.items }
      let s3 := addAction s2 id "putdown" ("Put down item " ++ itemID)
      (s3, .ok ())
    else (s, .error .preconditionFailed)

/-- handlers.go `UpdateState`: each present field is assigned (no clamp, no
comparison with the old value) and one "update" entry is logged per present
field, energy first. -/
def updateState (s : Store) (id : String) (req : StateUpdateRequest) :
    Store × Except Err Unit :=
  match getRobot s id with
  | none => (s, .error .notFound)
  | some _ =>
    let s1 := match req.energy with
      | some e =>
        addAction (setRobot s id (fun r => { r with energy := e })) id
          "update" ("Updated energy to " ++ toString e)
      | none => s
    let s2 := match req.position with
      | some p =>
        addAction (setRobot s1 id (fun r => { r with position := p })) id
          "update" ("Updated position to (" ++ toString p.x ++ "," ++
            toString p.y ++ ")")
      | none => s1
    (s2, .ok ())

/-- Payload of a successful attack (handlers.go `AttackRobot` response:
`attacker_energy`, `target_energy`, `damage_dealt`). -/
structure AttackResponse where
  attackerEnergy : Int
  targetEnergy : Int
  damage : Int
deriving DecidableEq, Repr

/-- handlers.go `AttackRobot`.  Both robots are fetched (attacker first);
the attacker loses `energy * 5 / 100` (Go truncating division), then the
target loses `energy * 15 / 100` of its energy *as read from the store at
that point* — when attacker and target are the same robot the Go pointers
alias, so the damage is computed from the already-reduced energy — and the
target's energy is clamped at 0.  One "attack" entry goes to the attacker's
log and one "damaged" entry to the target's log. -/
def attackRobot (s : Store) (id targetID : String) :
    Store × Except Err AttackResponse :=
  match getRobot s id with
  | none => (s, .error .notFound)
  | some attacker =>
    match getRobot s targetID with
    | none => (s, .error .notFound)
    | some _ =>
      let energyReduction := Int.tdiv (attacker.energy * 5) 100
      let s1 := setRobot s id (fun r => { r with energy := r.energy - energyReduction })
      let tEnergy := ((getRobot s1 targetID).map Robot.energy).getD 0
      let damage := Int.tdiv (tEnergy * 15) 100
      let s2 := setRobot s1 targetID (fun r => { r with energy := r.energy - damage })
      let s3 := setRobot s2 targetID (fun r =>
        { r with energy := if r.energy < 0 then 0 else r.energy })
      let s4 := addAction s3 id "attack" ("Attacked robot " ++ targetID)
      let s5 := addAction s4 targetID "damaged" ("Damaged by robot " ++ id)
      let aE := ((getRobot s5 id).map Robot.energy).getD 0
      let tE := ((getRobot s5 targetID).map Robot.energy).getD 0
      (s5, .ok ⟨aE, tE, damage⟩)

/-- handlers.go `GetActions` normalization of the `page` query parameter:
`none` stands for an absent or unparsable value (`strconv.Atoi` error);
values below 1 are coerced to 1. -/
def normPage (o : Option Int) : Int :=
  match o with
  | none => 1
  | some p => if p < 1 then 1 else p

/-- handlers.go `GetActions` normalization of the `size` query parameter:
absent/unparsable or below-1 values are coerced to the default 5. -/
def normSize (o : Option Int) : Int :=
  match o with
  | none => 5
  | some v => if v < 1 then 5 else v

/-- handlers.go: `int(math.Ceil(float64(totalElements) / float64(size)))`.
For the integer ranges involved the float ceiling is exact, and for
`size ≥ 1`, `total ≥ 0` the exact value is `(total + size - 1) / size`. -/
def totalPagesOf (total size : Int) : Int :=
  (total + size - 1) / size

/-- handlers.go: `if page > totalPages && totalPages > 0 { page = totalPages }`. -/
def effPage (page totalPages : Int) : Int :=
  if page > totalPages ∧ totalPages > 0 then totalPages else page

/-- handlers.go: `endIndex := startIndex + size; if endIndex > totalElements
{ endIndex = totalElements }`. -/
def endIndexOf (startIndex size total : Int) : Int :=
  if startIndex + size > total then total else startIndex + size

/-- The indices visited by the Go loop `for i := startIndex; i < endIndex`. -/
def pageIndices (startIndex endIndex : Int) : List Nat :=
  List.range' startIndex.toNat (endIndex - startIndex).toNat

/-- The Go loop body reads `robot.Actions[i]` at each visited index.  This
idealizes the index arithmetic over unbounded `Int` and drops the
out-of-range case; it is adequate for the slice-content properties, and on
non-empty logs the page clamp keeps every index computation inside machine
range.  The wrapping 64-bit model of the same loop, which does account for
the panic, is `pageSliceW` below. -/
def pageSlice (actions : List Action) (startIndex endIndex : Int) : List Action :=
  (pageIndices startIndex endIndex).filterMap (fun i => actions[i]?)

/-- handlers.go `GetActions`, pure pagination part (spec section 4.3): page
metadata, the page's slice of the log, and the next/previous navigation
links. -/
def paginate (actions : List Action) (id : String) (opage osize : Option Int) :
    PaginatedActions :=
  let size := normSize osize
  let totalElements : Int := actions.length
  let totalPages := totalPagesOf totalElements size
  let page := effPage (normPage opage) totalPages
  let startIndex := (page - 1) * size
  let endIndex := endIndexOf startIndex size totalElements
  let info : PageInfo :=
    { number := page, size := size, totalElements := totalElements,
      totalPages := totalPages, hasNext := page < totalPages,
      hasPrevious := page > 1 }
  let nextLinks : List Link :=
    if info.hasNext then
      [⟨"next", "/robot/" ++ id ++ "/actions?page=" ++ toString (page + 1) ++
        "&size=" ++ toString size⟩]
    else []
  let prevLinks : List Link :=
    if info.hasPrevious then
      [⟨"previous", "/robot/" ++ id ++ "/actions?page=" ++ toString (page - 1) ++
        "&size=" ++ toString size⟩]
    else []
  { page := info, actions := pageSlice actions startIndex endIndex,
    links := nextLinks ++ prevLinks }

/-- handlers.go `GetActions`: fetch the robot (404 when absent) and paginate
its action log; never mutates the store. -/
def getActionsOp (s : Store) (id : String) (opage osize : Option Int) :
    Store × Except Err PaginatedActions :=
  match getRobot s id with
  | none => (s, .error .notFound)
  | some robot => (s, .ok (paginate robot.actions id opage osize))

/-- Two's-complement wrap of an unbounded integer into a signed 64-bit Go
`int` (the type of `page`, `size` and the slice indices on a 64-bit
platform; `strconv.Atoi` rejects anything outside this range). -/
def wrap64 (x : Int) : Int := (x + 2 ^ 63) % 2 ^ 64 - 2 ^ 63

/-- One `robot.Actions[i]` access of the Go loop over a machine-int index:
`none` models the index-out-of-range panic (negative index or index beyond
the log). -/
def readIdx (actions : List Action) (i : Int) : Option Action :=
  if 0 ≤ i then actions[i.toNat]? else none

/-- The Go loop `for i := startIndex; i < endIndex { ... robot.Actions[i]
... }` with a machine-int loop variable: the whole result is `none` as soon
as one access panics. -/
def pageSliceGo (actions : List Action) (startIndex endIndex : Int) :
    Option (List Action) :=
  (List.range' 0 (endIndex - startIndex).toNat).mapM
    (fun k => readIdx actions (startIndex + (k : Int)))

/-- handlers.go `GetActions`, slice part only, with the index arithmetic
carried out in Go's wrapping 64-bit `int`: `startIndex := (page-1)*size`
and `endIndex := startIndex + size` wrap on overflow, and `endIndex` is
clamped to `totalElements` only when it *exceeds* it — a wrapped-negative
`endIndex` is not clamped, so the loop can reach `robot.Actions[i]` with a
negative index and panic. -/
def pageSliceW (actions : List Action) (opage osize : Option Int) :
    Option (List Action) :=
  let size := normSize osize
  let totalElements : Int := actions.length
  let totalPages := totalPagesOf totalElements size
  let page := effPage (normPage opage) totalPages
  let startIndex := wrap64 ((page - 1) * size)
  let endIndex0 := wrap64 (startIndex + size)
  let endIndex := if endIndex0 > totalElements then totalElements else endIndex0
  pageSliceGo actions startIndex endIndex

/-- One request to the operation layer (spec section 4.2). -/
inductive Op where
  | move (id : String) (req : MoveRequest)
  | pickup (id itemId : String)
  | putdown (id itemId : String)
  | update (id : String) (req : StateUpdateRequest)
  | attack (id targetId : String)
  | actions (id : String) (page size : Option Int)
deriving DecidableEq

/-- Dispatch one operation against the store, keeping only success/error of
the payload (the payloads themselves are examined through the individual
handler functions). -/
def runOp (s : Store) (op : Op) : Store × Except Err Unit :=
  match op with
  | .move id req => moveRobot s id req
  | .pickup id itemId => pickupItem s id itemId
  | .putdown id itemId => putdownItem s id itemId
  | .update id req => updateState s id req
  | .attack id targetId =>
    let r := attackRobot s id targetId
    (r.1, r.2.map (fun _ => ()))
  | .actions id page size =>
    let r := getActionsOp s id page size
    (r.1, r.2.map (fun _ => ()))

/-- The store after a sequence of operations. -/
def runOps (s : Store) (ops : List Op) : Store :=
  ops.foldl (fun s op => (runOp s op).1) s

/-- storage.go `Initialize`: robot1's seven seeded historical actions. -/
def robot1SeedActions : List Action :=
  [⟨"create", "Robot was created"⟩,
   ⟨"move", "Moved north"⟩,
   ⟨"pickup", "Picked up item1"⟩,
   ⟨"putdown", "Put down item1"⟩,
   ⟨"update", "Updated energy to 100"⟩,
   ⟨"move", "Moved east"⟩,
   ⟨"attack", "Attacked robot2"⟩]

/-- storage.go `Initialize`: robot2's three seeded historical actions. -/
def robot2SeedActions : List Action :=
  [⟨"create", "Robot was created"⟩,
   ⟨"move", "Moved south"⟩,
   ⟨"damaged", "Damaged by robot1"⟩]

/-- storage.go `Initialize`: the seeded robots ("robot1" at (0,0), energy
100, 7 historical actions; "robot2" at (10,10), energy 100, 3 actions) and
the three seeded world items. -/
def seedStore : Store :=
  { robots :=
      [("robot1",
        { id := "robot1", position := ⟨0, 0⟩, direction := "north",
          energy := 100, inventory := [], actions := robot1SeedActions }),
       ("robot2",
        { id := "robot2", position := ⟨10, 10⟩, direction := "south",
          energy := 100, inventory := [], actions := robot2SeedActions })],
    items := {"item1", "item2", "item3"} }

/-- Every robot stored has non-negative energy. -/
def EnergyOK (s : Store) : Prop := ∀ p ∈ s.robots, 0 ≤ p.2.energy

/-- A request whose energy field (when it has one) is non-negative; every
operation other than `UpdateState` is unconditionally benign since no other
request carries an arbitrary energy value. -/
def benignEnergy : Op → Prop
  | .update _ req => ∀ e, req.energy = some e → 0 ≤ e
  | _ => True

/-- A one-robot store whose robot has an empty action log (used to
exercise the empty-log pagination path). -/
def emptyLogStore : Store :=
  { robots :=
      [("r0",
        { id := "r0", position := ⟨0, 0⟩, direction := "north",
          energy := 10, inventory := [], actions := [] })],
    items := ∅ }

/-! ### Store lemmas -/

theorem find?_setRobotList_self (rs : List (String × Robot)) (id : String)
    (f : Robot → Robot) :
    (setRobotList rs id f).find? (fun p => p.1 = id) =
      (rs.find? (fun p => p.1 = id)).map (fun p => (p.1, f p.2)) := by
  induction rs with
  | nil => simp [setRobotList]
  | cons p t ih =>
    by_cases h : p.1 = id
    · simp [setRobotList, h, List.find?]
    · simp [setRobotList, h, List.find?, ih]

theorem find?_setRobotList_ne (rs : List (String × Robot)) (id id' : String)
    (f : Robot → Robot) (h : id' ≠ id) :
    (setRobotList rs id f).find? (fun p => p.1 = id') =
      rs.find? (fun p => p.1 = id') := by
  induction rs with
  | nil => simp [setRobotList]
  | cons p t ih =>
    by_cases hp : p.1 = id
    · simp [setRobotList, hp, List.find?, Ne.symm h]
    · by_cases hq : p.1 = id'
      · simp [setRobotList, hp, List.find?, hq, h]
      · simp [setRobotList, hp, List.find?, hq, ih]

theorem getRobot_setRobot_self (s : Store) (id : String) (f : Robot → Robot) :
    getRobot (setRobot s id f) id = (getRobot s id).map f := by
  simp [getRobot, setRobot, find?_setRobotList_self, Option.map_map]
  rfl

theorem getRobot_setRobot_ne (s : Store) (id id' : String) (f : Robot → Robot)
    (h : id' ≠ id) :
    getRobot (setRobot s id f) id' = getRobot s id' := by
  simp [getRobot, setRobot, find?_setRobotList_ne _ _ _ _ h]

theorem getRobot_addAction_self (s : Store) (id ty d : String) :
    getRobot (addAction s id ty d) id =
      (getRobot s id).map (fun r => { r with actions := r.actions ++ [⟨ty, d⟩] }) :=
  getRobot_setRobot_self ..

theorem getRobot_addAction_ne (s : Store) (id id' ty d : String) (h : id' ≠ id) :
    getRobot (addAction s id ty d) id' = getRobot s id' :=
  getRobot_setRobot_ne _ _ _ _ h

theorem setRobotList_setRobotList (rs : List (String × Robot)) (id : String)
    (f g : Robot → Robot) :
    setRobotList (setRobotList rs id g) id f = setRobotList rs id (fun r => f (g r)) := by
  induction rs with
  | nil => rfl
  | cons p t ih =>
    by_cases h : p.1 = id
    · simp [setRobotList, h]
    · simp [setRobotList, h, ih]

theorem setRobot_setRobot (s : Store) (id : String) (f g : Robot → Robot) :
    setRobot (setRobot s id g) id f = setRobot s id (fun r => f (g r)) := by
  simp [setRobot, setRobotList_setRobotList]

theorem items_setRobot (s : Store) (id : String) (f : Robot → Robot) :
    (setRobot s id f).items = s.items := rfl

theorem items_addAction (s : Store) (id ty d : String) :
    (addAction s id ty d).items = s.items := rfl

/-! ### Energy invariant -/

/-- The attacker deduction never drives a non-negative energy negative:
`e * 5 / 100 ≤ e` in Go's truncating division when `0 ≤ e`. -/
theorem sub_five_percent_nonneg (e : Int) (he : 0 ≤ e) :
    0 ≤ e - Int.tdiv (e * 5) 100 := by
  rw [Int.tdiv_eq_ediv (by linarith) (by norm_num)]
  omega

theorem energyOK_setRobotList (rs : List (String × Robot)) (id : String)
    (f : Robot → Robot) (h : ∀ p ∈ rs, 0 ≤ p.2.energy)
    (hf : ∀ r, ((rs.find? (fun p => p.1 = id)).map (·.2)) = some r →
      0 ≤ r.energy → 0 ≤ (f r).energy) :
    ∀ p ∈ setRobotList rs id f, 0 ≤ p.2.energy := by
  revert h hf
  induction rs with
  | nil => intro h hf; simp [setRobotList]
  | cons p t ih =>
    intro h hf
    by_cases hp : p.1 = id
    · intro q hq
      simp only [setRobotList, hp, if_pos rfl] at hq
      cases hq with
      | head => exact hf p.2 (by simp [List.find?, hp]) (h p (by simp))
      | tail _ h2 => exact h q (List.mem_cons_of_mem _ h2)
    · intro q hq
      simp only [setRobotList, hp, if_neg hp] at hq
      cases hq with
      | head => exact h p (by simp)
      | tail _ h2 =>
        refine ih (fun p hp' => h p (List.mem_cons_of_mem _ hp')) ?_ q h2
        intro r hr
        apply hf
        simpa [List.find?, hp] using hr

theorem EnergyOK_setRobot (s : Store) (id : String) (f : Robot → Robot)
    (h : EnergyOK s)
    (hf : ∀ r, getRobot s id = some r → 0 ≤ r.energy → 0 ≤ (f r).energy) :
    EnergyOK (setRobot s id f) :=
  energyOK_setRobotList s.robots id f h hf

theorem EnergyOK_setRobot_of (s : Store) (id : String) (f : Robot → Robot)
    (h : EnergyOK s) (hf : ∀ r, 0 ≤ r.energy → 0 ≤ (f r).energy) :
    EnergyOK (setRobot s id f) :=
  EnergyOK_setRobot s id f h (fun r _ => hf r)

theorem EnergyOK_addAction (s : Store) (id ty d : String) (h : EnergyOK s) :
    EnergyOK (addAction s id ty d) :=
  EnergyOK_setRobot_of s id _ h (fun _ hr => hr)

/-- One operation preserves the non-negative-energy invariant, provided an
`UpdateState` carries only a non-negative energy value. -/
theorem runOp_preserves_EnergyOK (s : Store) (op : Op) (h : EnergyOK s)
    (hb : benignEnergy op) : EnergyOK (runOp s op).1 := by
  cases op with
  | move id req =>
    rcases hE : getRobot s id with _ | r
    · simpa [runOp, moveRobot, hE] using h
    · rcases hD : dirDelta req.direction with _ | d
      · simpa [runOp, moveRobot, hE, hD] using h
      · simp only [runOp, moveRobot, hE, hD]
        exact EnergyOK_addAction _ _ _ _
          (EnergyOK_setRobot_of _ _ _ h (fun _ hr => hr))
  | pickup id itemId =>
    rcases hE : getRobot s id with _ | r
    · simpa [runOp, pickupItem, hE] using h
    · by_cases hI : itemId ∈ s.items
      · simp only [runOp, pickupItem, hE, if_pos hI]
        exact EnergyOK_addAction _ _ _ _
          (EnergyOK_setRobot_of _ _ _ h (fun _ hr => hr))
      · simpa [runOp, pickupItem, hE, hI] using h
  | putdown id itemId =>
    rcases hE : getRobot s id with _ | r
    · simpa [runOp, putdownItem, hE] using h
    · by_cases hI : itemId ∈ r.inventory
      · simp only [runOp, putdownItem, hE, if_pos hI]
        exact EnergyOK_addAction _ _ _ _
          (EnergyOK_setRobot_of _ _ _ h (fun _ hr => hr))
      · simpa [runOp, putdownItem, hE, hI] using h
  | update id req =>
    rcases hE : getRobot s id with _ | r
    · simpa [runOp, updateState, hE] using h
    · simp only [runOp, updateState, hE]
      have h1 : EnergyOK (match req.energy with
          | some e => addAction (setRobot s id (fun r => { r with energy := e })) id
              "update" ("Updated energy to " ++ toString e)
          | none => s) := by
        rcases hEn : req.energy with _ | e
        · exact h
        · exact EnergyOK_addAction _ _ _ _
            (EnergyOK_setRobot_of _ _ _ h (fun _ _ => hb e hEn))
      rcases hP : req.position with _ | p
      · simpa [hP] using h1
      · simp only [hP]
        exact EnergyOK_addAction _ _ _ _
          (EnergyOK_setRobot_of _ _ _ h1 (fun _ hr => hr))
  | attack id targetId =>
    rcases hA : getRobot s id with _ | a
    · simpa [runOp, attackRobot, hA] using h
    · rcases hT : getRobot s targetId with _ | t
      · simpa [runOp, attackRobot, hA, hT] using h
      · simp only [runOp, attackRobot, hA, hT]
        have h1 : EnergyOK (setRobot s id (fun r =>
            { r with energy := r.energy - Int.tdiv (a.energy * 5) 100 })) := by
          refine EnergyOK_setRobot _ _ _ h ?_
          intro r hr hre
          have : r = a := by
            rw [hA] at hr
            exact Option.some_injective _ hr.symm
          subst this
          exact sub_five_percent_nonneg r.energy hre
        rw [setRobot_setRobot]
        refine EnergyOK_addAction _ _ _ _ (EnergyOK_addAction _ _ _ _ ?_)
        refine EnergyOK_setRobot_of _ _ _ h1 ?_
        intro r _
        simp only
        split <;> omega
  | actions id page size =>
    rcases hE : getRobot s id with _ | r
    · simpa [runOp, getActionsOp, hE] using h
    · simpa [runOp, getActionsOp, hE] using h

/-- Preservation along a whole operation sequence. -/
theorem runOps_preserves_EnergyOK (ops : List Op) :
    ∀ s : Store, EnergyOK s → (∀ op ∈ ops, benignEnergy op) →
      EnergyOK (runOps s ops) := by
  induction ops with
  | nil => intro s hs _; simpa [runOps] using hs
  | cons op t ih =>
    intro s hs hb
    have h1 : EnergyOK (runOp s op).1 :=
      runOp_preserves_EnergyOK s op hs (hb op (by simp))
    have := ih (runOp s op).1 h1 (fun o ho => hb o (by simp [ho]))
    simpa [runOps, List.foldl_cons] using this

/-! ### Pagination lemmas -/

/-- Reading a list at the indices `[a, a+n)` — all in bounds — yields the
contiguous slice `(l.drop a).take n`, in original order. -/
theorem filterMap_getElem_range' {α : Type} (l : List α) (a n : Nat)
    (h : a + n ≤ l.length) :
    (List.range' a n).filterMap (fun i => l[i]?) = (l.drop a).take n := by
  induction n generalizing a with
  | zero => simp
  | succ n ih =>
    have ha : a < l.length := by omega
    rw [List.range'_succ, List.filterMap_cons]
    have hget : l[a]? = some l[a] := List.getElem?_eq_getElem ha
    rw [hget, List.drop_eq_getElem_cons ha, List.take_succ_cons]
    have := ih (a + 1) (by omega)
    rw [this]

/-- The normalized page is at least 1. -/
theorem one_le_normPage (o : Option Int) : 1 ≤ normPage o := by
  rcases o with _ | v
  · simp [normPage]
  · simp only [normPage]
    split <;> omega

/-- The normalized size is at least 1. -/
theorem one_le_normSize (o : Option Int) : 1 ≤ normSize o := by
  rcases o with _ | v
  · simp [normSize]
  · simp only [normSize]
    split <;> omega

/-- `totalPagesOf` is the integer ceiling: characterization via the division
identity for a positive size. -/
theorem totalPagesOf_bounds (total size : Int) (ht : 0 ≤ total) (hs : 1 ≤ size) :
    (total = 0 → totalPagesOf total size = 0) ∧
      (0 < total → (totalPagesOf total size - 1) * size < total ∧
        total ≤ totalPagesOf total size * size) := by
  unfold totalPagesOf
  have hdiv := Int.ediv_add_emod (total + size - 1) size
  have hm0 : 0 ≤ (total + size - 1) % size :=
    Int.emod_nonneg _ (by omega)
  have hm1 : (total + size - 1) % size < size :=
    Int.emod_lt_of_pos _ (by omega)
  constructor
  · intro h0
    subst h0
    exact Int.ediv_eq_zero_of_lt (by omega) (by omega)
  · intro hpos
    constructor <;> nlinarith [hdiv, hm0, hm1]

/-- `totalPagesOf` is non-negative for non-negative totals. -/
theorem totalPagesOf_nonneg (total size : Int) (ht : 0 ≤ total) (hs : 1 ≤ size) :
    0 ≤ totalPagesOf total size := by
  unfold totalPagesOf
  have hdiv := Int.ediv_add_emod (total + size - 1) size
  have hm0 : 0 ≤ (total + size - 1) % size := Int.emod_nonneg _ (by omega)
  have hm1 : (total + size - 1) % size < size := Int.emod_lt_of_pos _ (by omega)
  nlinarith [hdiv, hm0, hm1]

/-- Bounds of the effective page: at least the lower page bound, and at most
`totalPages` whenever there is at least one page. -/
theorem effPage_bounds (page tp : Int) (hp : 1 ≤ page) :
    1 ≤ effPage page tp ∧ (1 ≤ tp → effPage page tp ≤ tp) := by
  unfold effPage
  constructor
  · split <;> omega
  · intro h1
    split <;> omega

/-- The page's slice, as computed index-by-index by the Go loop, is the
contiguous `drop/take` slice of the log. -/
theorem pageSlice_eq_drop_take (actions : List Action) (start sz : Int)
    (h0 : 0 ≤ start) (hs : 1 ≤ sz) :
    pageSlice actions start (endIndexOf start sz actions.length) =
      (actions.drop start.toNat).take sz.toNat := by
  by_cases hE : start + sz > (actions.length : Int)
  · by_cases hS : start ≤ (actions.length : Int)
    · have hle : start.toNat + ((actions.length : Int) - start).toNat
          ≤ actions.length := by omega
      rw [pageSlice, pageIndices, endIndexOf, if_pos hE,
        filterMap_getElem_range' actions _ _ hle]
      have hlen : (actions.drop start.toNat).length = actions.length - start.toNat :=
        List.length_drop _ _
      rw [List.take_of_length_le (by omega), List.take_of_length_le (by omega)]
    · have hnil : actions.drop start.toNat = [] :=
        List.drop_eq_nil_of_le (by omega)
      rw [pageSlice, pageIndices, endIndexOf, if_pos hE]
      have hcount : ((actions.length : Int) - start).toNat = 0 := by omega
      rw [hcount]
      simp [hnil]
  · have hle : start.toNat + sz.toNat ≤ actions.length := by omega
    have hcount : (start + sz - start).toNat = sz.toNat := by omega
    rw [pageSlice, pageIndices, endIndexOf, if_neg hE, hcount,
      filterMap_getElem_range' actions _ _ hle]

/-! ### Claim C2 -/

/-- C2: For every action log (oldest-first) and untrusted page/size inputs,
`GetActions` coerces page to 1 when below 1 or unparsable and size to 5 when
below 1 or unparsable, computes `totalPages` as the integer ceiling of
`totalElements / size` (0 for an empty log), silently clamps the effective
page down to `totalPages` when it exceeds it and `totalPages > 0`, returns
exactly the contiguous slice `[(page-1)*size, min(page*size, total))` of the
log in original order, sets `hasNext` iff the effective page is before the
last page and `hasPrevious` iff it is after page 1, and emits a "next" link
(to page+1, same size) exactly when `hasNext` and a "previous" link (to
page-1) exactly when `hasPrevious`.  (`none` stands for an absent or
unparsable query value.) -/
theorem getActions_pagination_spec (actions : List Action) (rid : String)
    (op os : Option Int) (res : PaginatedActions)
    (hres : res = paginate actions rid op os) :
    ((os = none ∨ ∃ v, os = some v ∧ v < 1) → res.page.size = 5) ∧
    (∀ v, os = some v → 1 ≤ v → res.page.size = v) ∧
    res.page.totalElements = (actions.length : Int) ∧
    (actions.length = 0 → res.page.totalPages = 0) ∧
    (0 < actions.length →
      (res.page.totalPages - 1) * res.page.size < (actions.length : Int) ∧
      (actions.length : Int) ≤ res.page.totalPages * res.page.size) ∧
    ((op = none ∨ ∃ v, op = some v ∧ v < 1) → normPage op = 1) ∧
    (∀ v, op = some v → 1 ≤ v → normPage op = v) ∧
    (normPage op ≤ res.page.totalPages ∨ res.page.totalPages = 0 →
      res.page.number = normPage op) ∧
    (res.page.totalPages < normPage op → 0 < res.page.totalPages →
      res.page.number = res.page.totalPages) ∧
    res.actions = (actions.drop ((res.page.number - 1) * res.page.size).toNat).take
      res.page.size.toNat ∧
    (res.page.hasNext = true ↔ res.page.number < res.page.totalPages) ∧
    (res.page.hasPrevious = true ↔ 1 < res.page.number) ∧
    (res.page.number < res.page.totalPages →
      Link.mk "next" ("/robot/" ++ rid ++ "/actions?page=" ++
        toString (res.page.number + 1) ++ "&size=" ++ toString res.page.size)
        ∈ res.links) ∧
    (¬ res.page.number < res.page.totalPages → ∀ l ∈ res.links, l.rel ≠ "next") ∧
    (1 < res.page.number →
      Link.mk "previous" ("/robot/" ++ rid ++ "/actions?page=" ++
        toString (res.page.number - 1) ++ "&size=" ++ toString res.page.size)
        ∈ res.links) ∧
    (¬ 1 < res.page.number → ∀ l ∈ res.links, l.rel ≠ "previous") := by
  subst hres
  simp only [paginate]
  set sz := normSize os with hszdef
  set tp := totalPagesOf (actions.length : Int) sz with htpdef
  set pg := effPage (normPage op) tp with hpgdef
  have hs1 : 1 ≤ sz := one_le_normSize os
  have hp1 : 1 ≤ normPage op := one_le_normPage op
  have htnn : (0 : Int) ≤ (actions.length : Int) := Int.ofNat_nonneg _
  obtain ⟨hcz, hcb⟩ := totalPagesOf_bounds (actions.length : Int) sz htnn hs1
  obtain ⟨hpg1, hpgle⟩ := effPage_bounds (normPage op) tp hp1
  refine ⟨?_, ?_, trivial, ?_, ?_, ?_, ?_, ?_, ?_, ?_, by simp, by simp,
    ?_, ?_, ?_, ?_⟩
  · rintro (h | ⟨v, hv, hlt⟩)
    · rw [hszdef, h]
      rfl
    · rw [hszdef, hv]
      show (if v < 1 then (5 : Int) else v) = 5
      rw [if_pos hlt]
  · intro v hv h1
    rw [hszdef, hv]
    show (if v < 1 then (5 : Int) else v) = v
    rw [if_neg (by omega)]
  · intro h
    exact hcz (by simp [h])
  · intro h
    exact hcb (by exact_mod_cast h)
  · rintro (h | ⟨v, hv, hlt⟩)
    · rw [h]
      rfl
    · rw [hv]
      show (if v < 1 then (1 : Int) else v) = 1
      rw [if_pos hlt]
  · intro v hv h1
    rw [hv]
    show (if v < 1 then (1 : Int) else v) = v
    rw [if_neg (by omega)]
  · intro h
    rw [hpgdef]
    unfold effPage
    rw [if_neg (by omega)]
  · intro h1 h2
    rw [hpgdef]
    unfold effPage
    rw [if_pos ⟨h1, h2⟩]
  · exact pageSlice_eq_drop_take actions _ sz
      (mul_nonneg (by omega) (by omega)) hs1
  · intro hlt
    rw [if_pos (by simpa using hlt)]
    exact List.mem_append_left _ (by simp)
  · intro hnlt l hl
    rw [if_neg (by simpa using hnlt)] at hl
    simp only [List.nil_append] at hl
    by_cases hp : 1 < pg
    · rw [if_pos (by simpa using hp)] at hl
      simp only [List.mem_singleton] at hl
      rw [hl]
      simp
    · rw [if_neg (by simpa using hp)] at hl
      simp at hl
  · intro hgt
    by_cases hn : pg < tp
    · rw [if_pos (by simpa using hn), if_pos (by simpa using hgt)]
      exact List.mem_append_right _ (by simp)
    · rw [if_neg (by simpa using hn), if_pos (by simpa using hgt)]
      simp
  · intro hngt l hl
    by_cases hn : pg < tp
    · rw [if_pos (by simpa using hn), if_neg (by simpa using hngt)] at hl
      rw [List.append_nil] at hl
      simp only [List.mem_singleton] at hl
      rw [hl]
      simp
    · rw [if_neg (by simpa using hn), if_neg (by simpa using hngt)] at hl
      simp at hl

/-! ### Claim C9 -/

/-- An empty log yields zero total pages. -/
theorem totalPages_nil (os : Option Int) :
    totalPagesOf ((([] : List Action)).length : Int) (normSize os) = 0 := by
  have hs1 : 1 ≤ normSize os := one_le_normSize os
  unfold totalPagesOf
  exact Int.ediv_eq_zero_of_lt
    (by simp only [List.length_nil, Nat.cast_zero]; omega)
    (by simp only [List.length_nil, Nat.cast_zero]; omega)

/-- With zero total pages no clamping happens. -/
theorem effPage_zero (p : Int) : effPage p 0 = p := by
  simp [effPage]

/-- Reading indices out of an empty list yields nothing. -/
theorem pageSlice_nil (a b : Int) : pageSlice [] a b = [] := by
  simp [pageSlice]

/-- `wrap64` is the identity on values already inside the signed 64-bit
range. -/
theorem wrap64_eq_self (x : Int) (h1 : -2 ^ 63 ≤ x) (h2 : x < 2 ^ 63) :
    wrap64 x = x := by
  unfold wrap64
  rw [Int.emod_eq_of_lt (by omega) (by omega)]
  omega

/-- C9 counterexample: on an empty log the page is not clamped, so
`page = 1844674407370955163` with `size = 5` (both valid 64-bit ints) makes
`startIndex = (page-1)*size` wrap to a negative machine int; the negative
`endIndex` escapes the `endIndex > totalElements` clamp and the loop reaches
`robot.Actions[i]` with a negative index — an out-of-range panic, not the
claimed empty slice. -/
theorem getActions_empty_log_counterexample :
    wrap64 ((effPage (normPage (some 1844674407370955163))
        (totalPagesOf ((([] : List Action)).length : Int) (normSize (some 5)))
      - 1) * normSize (some 5)) < 0 ∧
    pageSliceW [] (some 1844674407370955163) (some 5) = none := by
  constructor
  · decide
  · rfl

/-- C9 (amended): On a robot with an empty action log, for every page and
size whose normalized values satisfy `page * size < 2^63` (no 64-bit
overflow in the slice-index arithmetic — outside this range the
multiplication wraps negative and the indexed access panics, see the
counterexample), `GetActions` returns an empty action slice with
`totalElements = 0`, `totalPages = 0` and `hasNext = false`, the store is
untouched, the machine-int index arithmetic does not wrap, stays ≥ 0, and
the access loop runs zero times (no out-of-range access); the effective
page is NOT clamped (the reported page equals the normalized requested
page), so `hasPrevious` is true whenever the requested page exceeds 1. -/
theorem getActions_empty_log_no_overflow (s : Store) (id : String)
    (op os : Option Int) (r : Robot) (hR : getRobot s id = some r)
    (hE : r.actions = [])
    (hov : normPage op * normSize os < 2 ^ 63) :
    (getActionsOp s id op os).1 = s ∧
    wrap64 ((effPage (normPage op)
        (totalPagesOf (r.actions.length : Int) (normSize os)) - 1)
      * normSize os) = (normPage op - 1) * normSize os ∧
    0 ≤ (normPage op - 1) * normSize os ∧
    pageSliceW r.actions op os = some [] ∧
    ∃ res, (getActionsOp s id op os).2 = .ok res ∧
      res.actions = [] ∧
      res.page.totalElements = 0 ∧
      res.page.totalPages = 0 ∧
      res.page.hasNext = false ∧
      res.page.number = normPage op ∧
      (res.page.hasPrevious = true ↔ 1 < normPage op) := by
  have hs1 : 1 ≤ normSize os := one_le_normSize os
  have hp1 : 1 ≤ normPage op := one_le_normPage op
  have hmul : (normPage op - 1) * normSize os
      = normPage op * normSize os - normSize os := by ring
  have h0 : 0 ≤ (normPage op - 1) * normSize os :=
    mul_nonneg (by omega) (by omega)
  have hwrap : wrap64 ((normPage op - 1) * normSize os)
      = (normPage op - 1) * normSize os :=
    wrap64_eq_self _ (by omega) (by omega)
  have hwrap2 : wrap64 ((normPage op - 1) * normSize os + normSize os)
      = (normPage op - 1) * normSize os + normSize os :=
    wrap64_eq_self _ (by omega) (by omega)
  have hnum : effPage (normPage op)
      (totalPagesOf ((([] : List Action)).length : Int) (normSize os)) =
        normPage op := by
    rw [totalPages_nil]
    exact effPage_zero _
  have htp0 : totalPagesOf (0 : Int) (normSize os) = 0 := by
    simpa using totalPages_nil os
  have hnum0 : effPage (normPage op) (totalPagesOf (0 : Int) (normSize os)) =
      normPage op := by
    rw [htp0]
    exact effPage_zero _
  refine ⟨by simp [getActionsOp, hR], ?_, h0, ?_, paginate [] id op os,
    by simp [getActionsOp, hR, hE], ?_, ?_, ?_, ?_, ?_, ?_⟩
  · rw [hE, hnum]
    exact hwrap
  · rw [hE]
    simp only [pageSliceW, List.length_nil, Nat.cast_zero]
    rw [hnum0, hwrap, hwrap2, if_pos (by omega)]
    unfold pageSliceGo
    have hc : ((0 : Int) - (normPage op - 1) * normSize os).toNat = 0 := by
      omega
    rw [hc]
    rfl
  · simp only [paginate]
    exact pageSlice_nil _ _
  · simp [paginate]
  · simp only [paginate]
    exact totalPages_nil os
  · simp only [paginate]
    rw [hnum, totalPages_nil]
    simp only [decide_eq_false_iff_not]
    omega
  · simp only [paginate]
    exact hnum
  · simp only [paginate]
    rw [hnum]
    simp

/-! ### Claim C4 -/

/-- The four literal directions of the Go switch. -/
theorem dirDelta_up : dirDelta "up" = some (0, 1) := rfl

theorem dirDelta_down : dirDelta "down" = some (0, -1) := rfl

theorem dirDelta_left : dirDelta "left" = some (-1, 0) := rfl

theorem dirDelta_right : dirDelta "right" = some (1, 0) := rfl

/-- C4: For every existing robot, a valid direction moves exactly one
coordinate by exactly 1 — up is +Y, down is −Y, left is −X, right is +X —
leaves the other coordinate (and everything else except the log) unchanged,
and appends exactly one "move" entry carrying the literal direction; any
other direction string fails with `InvalidArgument` and leaves the store —
hence the robot's position and log — untouched. -/
theorem move_direction_spec (s : Store) (id : String) (req : MoveRequest)
    (r : Robot) (hR : getRobot s id = some r) :
    (req.direction = "up" → (moveRobot s id req).2 = .ok () ∧
      getRobot (moveRobot s id req).1 id = some { r with
        position := ⟨r.position.x, r.position.y + 1⟩,
        actions := r.actions ++ [⟨"move", "Moved up"⟩] }) ∧
    (req.direction = "down" → (moveRobot s id req).2 = .ok () ∧
      getRobot (moveRobot s id req).1 id = some { r with
        position := ⟨r.position.x, r.position.y - 1⟩,
        actions := r.actions ++ [⟨"move", "Moved down"⟩] }) ∧
    (req.direction = "left" → (moveRobot s id req).2 = .ok () ∧
      getRobot (moveRobot s id req).1 id = some { r with
        position := ⟨r.position.x - 1, r.position.y⟩,
        actions := r.actions ++ [⟨"move", "Moved left"⟩] }) ∧
    (req.direction = "right" → (moveRobot s id req).2 = .ok () ∧
      getRobot (moveRobot s id req).1 id = some { r with
        position := ⟨r.position.x + 1, r.position.y⟩,
        actions := r.actions ++ [⟨"move", "Moved right"⟩] }) ∧
    (req.direction ≠ "up" → req.direction ≠ "down" → req.direction ≠ "left" →
      req.direction ≠ "right" →
      (moveRobot s id req).2 = .error .invalidArgument ∧
      (moveRobot s id req).1 = s) := by
  refine ⟨?_, ?_, ?_, ?_, ?_⟩
  · intro h
    simp only [moveRobot, hR, h, dirDelta_up]
    refine ⟨trivial, ?_⟩
    rw [getRobot_addAction_self, getRobot_setRobot_self, hR]
    simp
    try omega
  · intro h
    simp only [moveRobot, hR, h, dirDelta_down]
    refine ⟨trivial, ?_⟩
    rw [getRobot_addAction_self, getRobot_setRobot_self, hR]
    simp
    try omega
  · intro h
    simp only [moveRobot, hR, h, dirDelta_left]
    refine ⟨trivial, ?_⟩
    rw [getRobot_addAction_self, getRobot_setRobot_self, hR]
    simp
    try omega
  · intro h
    simp only [moveRobot, hR, h, dirDelta_right]
    refine ⟨trivial, ?_⟩
    rw [getRobot_addAction_self, getRobot_setRobot_self, hR]
    simp
    try omega
  · intro h1 h2 h3 h4
    simp only [moveRobot, hR, dirDelta]
    rw [if_neg h1, if_neg h2, if_neg h3, if_neg h4]
    exact ⟨rfl, rfl⟩

/-! ### Claim C6 -/

/-- C6 (amended): `UpdateState` applies each present field and leaves each
omitted field untouched (partial update), and appends exactly one "update"
entry per field *present in the request* — even when the supplied value
equals the current one — in the order energy-then-position. -/
theorem updateState_partial_update (s : Store) (id : String)
    (req : StateUpdateRequest) (r : Robot) (hR : getRobot s id = some r) :
    (updateState s id req).2 = .ok () ∧
    getRobot (updateState s id req).1 id = some { r with
      energy := req.energy.getD r.energy,
      position := req.position.getD r.position,
      actions := (r.actions ++
        (match req.energy with
          | some e => [⟨"update", "Updated energy to " ++ toString e⟩]
          | none => [])) ++
        (match req.position with
          | some p => [⟨"update", "Updated position to (" ++ toString p.x ++
              "," ++ toString p.y ++ ")"⟩]
          | none => []) } := by
  rcases hEn : req.energy with _ | e <;> rcases hP : req.position with _ | p <;>
    simp only [updateState, hR, hEn, hP]
  · exact ⟨trivial, by simp⟩
  · refine ⟨trivial, ?_⟩
    rw [getRobot_addAction_self, getRobot_setRobot_self, hR]
    simp
  · refine ⟨trivial, ?_⟩
    rw [getRobot_addAction_self, getRobot_setRobot_self, hR]
    simp
  · refine ⟨trivial, ?_⟩
    rw [getRobot_addAction_self, getRobot_setRobot_self,
      getRobot_addAction_self, getRobot_setRobot_self, hR]
    simp

/-- C6 counterexample: updating "robot1" (energy 100) with energy 100 changes
no field value, yet one "update" entry is appended — the log grows per field
*present*, not per field *actually changed*. -/
theorem updateState_log_counterexample :
    ((getRobot seedStore "robot1").map
      (fun r => (r.energy, r.actions.length))) = some (100, 7) ∧
    ((getRobot (updateState seedStore "robot1"
        { energy := some 100, position := none }).1 "robot1").map
      (fun r => (r.energy, r.actions.length))) = some (100, 8) :=
  ⟨by rfl, by rfl⟩

/-! ### Claim C10 -/

/-- C10: A successful `Putdown` removes every occurrence of the item from
the robot's inventory (afterwards the item is not a member), and keeps all
remaining entries with their multiplicities in their original relative
order (the new inventory is a sublist of the old preserving counts of every
other item). -/
theorem putdown_removes_all_occurrences (s : Store) (id itemID : String)
    (r : Robot) (hR : getRobot s id = some r) (hMem : itemID ∈ r.inventory) :
    (putdownItem s id itemID).2 = .ok () ∧
    ∃ r', getRobot (putdownItem s id itemID).1 id = some r' ∧
      itemID ∉ r'.inventory ∧
      r'.inventory.Sublist r.inventory ∧
      ∀ x, x ≠ itemID → r'.inventory.count x = r.inventory.count x := by
  simp only [putdownItem, hR, if_pos hMem]
  refine ⟨trivial, ?_⟩
  refine ⟨{ r with
      inventory := r.inventory.filter (fun x => x ≠ itemID),
      actions := r.actions ++ [⟨"putdown", "Put down item " ++ itemID⟩] },
    ?_, ?_, ?_, ?_⟩
  · rw [getRobot_addAction_self]
    have hmid : getRobot
        { setRobot s id (fun rr =>
            { rr with inventory := r.inventory.filter (fun x => x ≠ itemID) }) with
          items := insert itemID (setRobot s id (fun rr =>
            { rr with inventory := r.inventory.filter (fun x => x ≠ itemID) })).items }
        id = some { r with inventory := r.inventory.filter (fun x => x ≠ itemID) } := by
      show getRobot (setRobot s id _) id = _
      rw [getRobot_setRobot_self, hR]
      rfl
    rw [hmid]
    rfl
  · simp
  · exact List.filter_sublist _
  · intro x hx
    exact List.count_filter (by simp [hx])

/-! ### Claim C5 -/

/-- C5: Picking up an available world item and then putting it down again
(same robot, same item) restores the robot's inventory and the
world-available item set to their exact pre-pickup states, and appends
exactly two log entries — one "pickup" then one "putdown".  (The item being
available in the world entails, by the disjoint-state invariant of the data
model, that it is not already in the robot's inventory.) -/
theorem pickup_putdown_roundtrip (s : Store) (id itemID : String) (r : Robot)
    (hR : getRobot s id = some r) (hW : itemID ∈ s.items)
    (hInv : itemID ∉ r.inventory) :
    (pickupItem s id itemID).2 = .ok () ∧
    (putdownItem (pickupItem s id itemID).1 id itemID).2 = .ok () ∧
    (putdownItem (pickupItem s id itemID).1 id itemID).1.items = s.items ∧
    getRobot (putdownItem (pickupItem s id itemID).1 id itemID).1 id =
      some { r with actions := r.actions ++
        [⟨"pickup", "Picked up item " ++ itemID⟩,
         ⟨"putdown", "Put down item " ++ itemID⟩] } := by
  have hfil : r.inventory.filter (fun x => x ≠ itemID) = r.inventory :=
    List.filter_eq_self.mpr (fun a ha => by
      simp only [ne_eq, decide_not, Bool.not_eq_eq_eq_not, Bool.not_true,
        decide_eq_false_iff_not]
      rintro rfl
      exact hInv ha)
  have hup1 : getRobot (pickupItem s id itemID).1 id =
      some { r with
        inventory := r.inventory ++ [itemID],
        actions := r.actions ++ [⟨"pickup", "Picked up item " ++ itemID⟩] } := by
    simp only [pickupItem, hR, hW, if_true]
    rw [getRobot_addAction_self]
    show ((getRobot (setRobot s id (fun rr =>
      { rr with inventory := rr.inventory ++ [itemID] })) id).map _) = _
    rw [getRobot_setRobot_self, hR]
    rfl
  have hitems1 : (pickupItem s id itemID).1.items = s.items.erase itemID := by
    simp only [pickupItem, hR, hW, if_true]
    rfl
  have hmem1 : itemID ∈ r.inventory ++ [itemID] := by simp
  refine ⟨?_, ?_, ?_, ?_⟩
  · simp only [pickupItem, hR, hW, if_true]
  · simp only [putdownItem, hup1, hmem1, if_true]
  · simp only [putdownItem, hup1, hmem1, if_true]
    show insert itemID (pickupItem s id itemID).1.items = s.items
    rw [hitems1]
    exact Finset.insert_erase hW
  · simp only [putdownItem, hup1, hmem1, if_true]
    rw [getRobot_addAction_self]
    show ((getRobot (setRobot (pickupItem s id itemID).1 id (fun rr =>
      { rr with inventory :=
          (r.inventory ++ [itemID]).filter (fun x => x ≠ itemID) })) id).map _) = _
    rw [getRobot_setRobot_self, hup1]
    simp [List.filter_append, hfil]
    intro a ha h
    exact hInv (h ▸ ha)

/-! ### Attack evaluation lemmas -/

/-- Full evaluation of `AttackRobot` when attacker and target are distinct
robots: the attacker pays 5% (truncating division), the target loses 15% of
its pre-operation energy, clamped at 0, and each log gains one entry. -/
theorem attackRobot_ne_spec (s : Store) (A T : String) (a t : Robot)
    (hA : getRobot s A = some a) (hT : getRobot s T = some t) (hne : A ≠ T) :
    (attackRobot s A T).2 = .ok
      { attackerEnergy := a.energy - Int.tdiv (a.energy * 5) 100,
        targetEnergy := if t.energy - Int.tdiv (t.energy * 15) 100 < 0 then 0
          else t.energy - Int.tdiv (t.energy * 15) 100,
        damage := Int.tdiv (t.energy * 15) 100 } ∧
    getRobot (attackRobot s A T).1 A = some { a with
      energy := a.energy - Int.tdiv (a.energy * 5) 100,
      actions := a.actions ++ [⟨"attack", "Attacked robot " ++ T⟩] } ∧
    getRobot (attackRobot s A T).1 T = some { t with
      energy := if t.energy - Int.tdiv (t.energy * 15) 100 < 0 then 0
        else t.energy - Int.tdiv (t.energy * 15) 100,
      actions := t.actions ++ [⟨"damaged", "Damaged by robot " ++ A⟩] } := by
  have hTA : T ≠ A := Ne.symm hne
  simp only [attackRobot, hA, hT, getRobot_setRobot_self, getRobot_setRobot_ne,
    getRobot_addAction_self, getRobot_addAction_ne, hne, hTA, Option.map_some',
    Option.getD_some, ne_eq, not_false_iff]
  exact ⟨trivial, trivial, trivial⟩

/-- Full evaluation of `AttackRobot` in the self-attack case: the Go
pointers alias, so the 15% damage is computed from the energy *after* the
attacker's 5% deduction, both deductions land on the same robot, and its
log gains the "attack" entry and then the "damaged" entry. -/
theorem attackRobot_self_spec (s : Store) (A : String) (a : Robot)
    (hA : getRobot s A = some a) :
    (attackRobot s A A).2 = .ok
      { attackerEnergy :=
          if a.energy - Int.tdiv (a.energy * 5) 100 -
              Int.tdiv ((a.energy - Int.tdiv (a.energy * 5) 100) * 15) 100 < 0
          then 0
          else a.energy - Int.tdiv (a.energy * 5) 100 -
            Int.tdiv ((a.energy - Int.tdiv (a.energy * 5) 100) * 15) 100,
        targetEnergy :=
          if a.energy - Int.tdiv (a.energy * 5) 100 -
              Int.tdiv ((a.energy - Int.tdiv (a.energy * 5) 100) * 15) 100 < 0
          then 0
          else a.energy - Int.tdiv (a.energy * 5) 100 -
            Int.tdiv ((a.energy - Int.tdiv (a.energy * 5) 100) * 15) 100,
        damage := Int.tdiv ((a.energy - Int.tdiv (a.energy * 5) 100) * 15) 100 } ∧
    getRobot (attackRobot s A A).1 A = some { a with
      energy :=
        if a.energy - Int.tdiv (a.energy * 5) 100 -
            Int.tdiv ((a.energy - Int.tdiv (a.energy * 5) 100) * 15) 100 < 0
        then 0
        else a.energy - Int.tdiv (a.energy * 5) 100 -
          Int.tdiv ((a.energy - Int.tdiv (a.energy * 5) 100) * 15) 100,
      actions := a.actions ++ [⟨"attack", "Attacked robot " ++ A⟩,
        ⟨"damaged", "Damaged by robot " ++ A⟩] } := by
  simp only [attackRobot, hA, getRobot_setRobot_self, getRobot_addAction_self,
    Option.map_some', Option.getD_some]
  exact ⟨trivial, by simp⟩

/-! ### Claim C1 -/

/-- C1 (amended): For every pair of *distinct* existing robots, a successful
attack reduces the attacker's energy by `attackerEnergy * 5 / 100` and the
target's energy by `targetEnergy * 15 / 100` (Go's truncating integer
division, i.e. floor on the non-negative energies), where `targetEnergy` is
the target's energy before any change in this operation; the target's energy
is clamped to ≥ 0 after the subtraction; exactly one "attack" entry is
appended to the attacker's log and one "damaged" entry to the target's log,
and `damage_dealt` reports the target deduction.  (When attacker = target
the Go pointers alias and the 15% deduction is computed from the
already-reduced energy — see the counterexample.) -/
theorem attack_costs_distinct_ids (s : Store) (A T : String) (a t : Robot)
    (hA : getRobot s A = some a) (hT : getRobot s T = some t) (hne : A ≠ T) :
    (attackRobot s A T).2 = .ok
      { attackerEnergy := a.energy - Int.tdiv (a.energy * 5) 100,
        targetEnergy := if t.energy - Int.tdiv (t.energy * 15) 100 < 0 then 0
          else t.energy - Int.tdiv (t.energy * 15) 100,
        damage := Int.tdiv (t.energy * 15) 100 } ∧
    getRobot (attackRobot s A T).1 A = some { a with
      energy := a.energy - Int.tdiv (a.energy * 5) 100,
      actions := a.actions ++ [⟨"attack", "Attacked robot " ++ T⟩] } ∧
    getRobot (attackRobot s A T).1 T = some { t with
      energy := if t.energy - Int.tdiv (t.energy * 15) 100 < 0 then 0
        else t.energy - Int.tdiv (t.energy * 15) 100,
      actions := t.actions ++ [⟨"damaged", "Damaged by robot " ++ A⟩] } :=
  attackRobot_ne_spec s A T a t hA hT hne

/-- C1 witness: the seeded scenario — "robot1" (energy 100) attacks
"robot2" (energy 100): attacker ends at 95, target at 85, damage 15. -/
theorem attack_costs_witness :
    (attackRobot seedStore "robot1" "robot2").2 = .ok ⟨95, 85, 15⟩ := by
  have h := attack_costs_distinct_ids seedStore "robot1" "robot2" _ _ rfl rfl
    (by decide)
  rw [h.1]
  rfl

/-- C1 counterexample: for attacker = target (which the claim includes), the
code computes the 15% deduction from the *already reduced* energy: a
self-attack at energy 100 deals damage 14 (not `100 * 15 / 100 = 15`) and
ends at 81 (not 100 − 5 − 15 = 80). -/
theorem attack_self_costs_counterexample :
    (attackRobot seedStore "robot1" "robot1").2 = .ok ⟨81, 81, 14⟩ ∧
    (14 : Int) ≠ Int.tdiv (100 * 15) 100 ∧
    ((getRobot (attackRobot seedStore "robot1" "robot1").1 "robot1").map
      Robot.energy) = some 81 ∧
    (81 : Int) ≠ 100 - Int.tdiv (100 * 5) 100 - Int.tdiv (100 * 15) 100 :=
  ⟨by rfl, by decide, by rfl, by decide⟩

/-! ### Claim C7 -/

/-- C7: After any attack between existing robots (the self-attack included),
the target's stored energy — also reported as `target_energy` — is ≥ 0; a
target starting at energy 0 stays at exactly 0. -/
theorem attack_target_energy_nonneg (s : Store) (A T : String) (a t : Robot)
    (hA : getRobot s A = some a) (hT : getRobot s T = some t) :
    ∃ resp : AttackResponse, (attackRobot s A T).2 = .ok resp ∧
      0 ≤ resp.targetEnergy ∧
      (getRobot (attackRobot s A T).1 T).map Robot.energy =
        some resp.targetEnergy ∧
      (t.energy = 0 → resp.targetEnergy = 0) := by
  by_cases hAT : A = T
  · subst hAT
    have hat : a = t := by
      rw [hA] at hT
      exact Option.some_injective _ hT
    subst hat
    obtain ⟨h1, h2⟩ := attackRobot_self_spec s A a hA
    refine ⟨_, h1, ?_, ?_, ?_⟩
    · dsimp only
      split <;> omega
    · rw [h2]
      rfl
    · intro h0
      dsimp only
      simp [h0]
  · obtain ⟨h1, h2, h3⟩ := attackRobot_ne_spec s A T a t hA hT hAT
    refine ⟨_, h1, ?_, ?_, ?_⟩
    · dsimp only
      split <;> omega
    · rw [h3]
      rfl
    · intro h0
      dsimp only
      simp [h0]

/-- C7 witness: the seeded attack leaves "robot2" at energy 85 ≥ 0. -/
theorem attack_target_energy_nonneg_witness :
    ∃ resp : AttackResponse,
      (attackRobot seedStore "robot1" "robot2").2 = .ok resp ∧
      0 ≤ resp.targetEnergy := by
  obtain ⟨resp, h1, h2, -, -⟩ :=
    attack_target_energy_nonneg seedStore "robot1" "robot2" _ _ rfl rfl
  exact ⟨resp, h1, h2⟩

/-! ### Claim C8 -/

/-- C8: Whenever an operation (Move, Pickup, Putdown, UpdateState, Attack,
GetActions) returns an error, the whole store — every robot's position,
energy, inventory and log, and the world-available item set — is exactly
what it was before the call: every precondition check happens before any
mutation. -/
theorem error_leaves_store_unchanged (s : Store) (op : Op) (e : Err)
    (h : (runOp s op).2 = .error e) : (runOp s op).1 = s := by
  cases op with
  | move id req =>
    rcases hE : getRobot s id with _ | r
    · simp [runOp, moveRobot, hE]
    · rcases hD : dirDelta req.direction with _ | d
      · simp [runOp, moveRobot, hE, hD]
      · simp [runOp, moveRobot, hE, hD] at h
  | pickup id itemId =>
    rcases hE : getRobot s id with _ | r
    · simp [runOp, pickupItem, hE]
    · by_cases hI : itemId ∈ s.items
      · simp [runOp, pickupItem, hE, hI] at h
      · simp [runOp, pickupItem, hE, hI]
  | putdown id itemId =>
    rcases hE : getRobot s id with _ | r
    · simp [runOp, putdownItem, hE]
    · by_cases hI : itemId ∈ r.inventory
      · simp [runOp, putdownItem, hE, hI] at h
      · simp [runOp, putdownItem, hE, hI]
  | update id req =>
    rcases hE : getRobot s id with _ | r
    · simp [runOp, updateState, hE]
    · simp [runOp, updateState, hE] at h
  | attack id targetId =>
    rcases hA : getRobot s id with _ | a
    · simp [runOp, attackRobot, hA]
    · rcases hT : getRobot s targetId with _ | t
      · simp [runOp, attackRobot, hA, hT]
      · simp [runOp, attackRobot, hA, hT, Except.map] at h
  | actions id page size =>
    rcases hE : getRobot s id with _ | r
    · simp [runOp, getActionsOp, hE]
    · simp [runOp, getActionsOp, hE, Except.map] at h

/-- C8 witness: a move with the invalid direction "diagonal" on the seeded
store errors and leaves the store exactly as seeded. -/
theorem error_leaves_store_unchanged_witness :
    (runOp seedStore (.move "robot1" ⟨"diagonal"⟩)).1 = seedStore :=
  error_leaves_store_unchanged seedStore (.move "robot1" ⟨"diagonal"⟩)
    .invalidArgument (by rfl)

/-! ### Claim C3 -/

/-- Stored robots reached through `getRobot` are members of the store. -/
theorem energy_nonneg_of_energyOK (s : Store) (id : String) (h : EnergyOK s) :
    ∀ r, getRobot s id = some r → 0 ≤ r.energy := by
  intro r hg
  unfold getRobot at hg
  rcases hf : s.robots.find? (fun p => p.1 = id) with _ | p
  · rw [hf] at hg
    simp at hg
  · rw [hf] at hg
    simp only [Option.map_some'] at hg
    have hp := List.mem_of_find?_eq_some hf
    have hnn := h p hp
    have hpr : p.2 = r := Option.some_injective _ hg
    rw [← hpr]
    exact hnn

/-- C3 (amended): starting from the seeded state, every sequence of
operations in which each `UpdateState` carries a non-negative energy value
(or none) leaves every robot's energy ≥ 0: Attack clamps the target and the
attacker's 5% deduction cannot drive a non-negative energy negative, the
other operations do not lower energy — but `UpdateState` itself applies the
requested value without any clamp, so a negative requested energy violates
the invariant (see the counterexample). -/
theorem energy_nonneg_invariant (ops : List Op)
    (hb : ∀ op ∈ ops, benignEnergy op) : EnergyOK (runOps seedStore ops) :=
  runOps_preserves_EnergyOK ops seedStore
    (by
      show ∀ p ∈ seedStore.robots, 0 ≤ p.2.energy
      decide) hb

/-- C3 witness: a benign sequence — move, a real attack, an update to
energy 50 — keeps all energies non-negative. -/
theorem energy_nonneg_invariant_witness :
    EnergyOK (runOps seedStore
      [.move "robot1" ⟨"up"⟩, .attack "robot1" "robot2",
       .update "robot2" { energy := some 50, position := none }]) := by
  apply energy_nonneg_invariant
  intro op hop
  fin_cases hop <;> simp [benignEnergy]

/-- C3 counterexample: `UpdateState` applies a negative energy unchecked —
after updating "robot1" to energy −5 the store violates the non-negativity
invariant, refuting the claim for arbitrary operation sequences. -/
theorem energy_nonneg_counterexample :
    ¬ EnergyOK (runOps seedStore
      [.update "robot1" { energy := some (-5), position := none }]) := by
  show ¬ ∀ p ∈ (runOps seedStore
      [.update "robot1" { energy := some (-5), position := none }]).robots,
    0 ≤ p.2.energy
  decide

/-! ### Remaining witnesses -/

/-- C2 witness: robot1's 7 seeded entries with page 1, size 5 — 7 total
elements and exactly the first 5 entries returned. -/
theorem getActions_pagination_witness :
    (paginate robot1SeedActions "robot1" (some 1) (some 5)).page.totalElements
      = 7 ∧
    (paginate robot1SeedActions "robot1" (some 1) (some 5)).actions =
      robot1SeedActions.take 5 := by
  obtain ⟨-, -, h3, -, -, -, -, -, -, h10, -, -, -, -, -, -⟩ :=
    getActions_pagination_spec robot1SeedActions "robot1" (some 1) (some 5)
      _ rfl
  constructor
  · simpa using h3
  · rw [h10]
    rfl

/-- C4 witness: moving the seeded "robot1" up succeeds and lands at (0,1). -/
theorem move_direction_witness :
    (moveRobot seedStore "robot1" ⟨"up"⟩).2 = .ok () ∧
    (getRobot (moveRobot seedStore "robot1" ⟨"up"⟩).1 "robot1").map
      (fun r => r.position) = some ⟨0, 1⟩ := by
  have h := (move_direction_spec seedStore "robot1" ⟨"up"⟩ _ rfl).1 rfl
  exact ⟨h.1, by rw [h.2]; rfl⟩

/-- C5 witness: pickup then putdown of "item1" by the seeded "robot1"
restores the seeded world-item set and the empty inventory. -/
theorem pickup_putdown_roundtrip_witness :
    (putdownItem (pickupItem seedStore "robot1" "item1").1 "robot1"
        "item1").1.items = seedStore.items ∧
    (getRobot (putdownItem (pickupItem seedStore "robot1" "item1").1 "robot1"
        "item1").1 "robot1").map Robot.inventory = some [] := by
  have h := pickup_putdown_roundtrip seedStore "robot1" "item1" _ rfl
    (by decide) (by decide)
  exact ⟨h.2.2.1, by rw [h.2.2.2]; rfl⟩

/-- C6 witness: updating the seeded "robot1" with energy 50 and position
(3,4) applies both fields and appends two log entries (7 → 9). -/
theorem updateState_partial_update_witness :
    (getRobot (updateState seedStore "robot1"
        { energy := some 50, position := some ⟨3, 4⟩ }).1 "robot1").map
      (fun r => (r.energy, r.position, r.actions.length)) =
      some (50, ⟨3, 4⟩, 9) := by
  have h := updateState_partial_update seedStore "robot1"
    { energy := some 50, position := some ⟨3, 4⟩ } _ rfl
  rw [h.2]
  rfl

/-- C9 witness: page 3, default size on an empty log — 3·5 is far below
2^63, the store is untouched, the machine loop performs no access and
yields the empty slice, zero pages, and `hasPrevious` is true because the
page is not clamped. -/
theorem getActions_empty_log_no_overflow_witness :
    (getActionsOp emptyLogStore "r0" (some 3) none).1 = emptyLogStore ∧
    pageSliceW ([] : List Action) (some 3) none = some [] ∧
    ∃ res, (getActionsOp emptyLogStore "r0" (some 3) none).2 = .ok res ∧
      res.actions = [] ∧ res.page.totalPages = 0 ∧
      res.page.hasPrevious = true := by
  obtain ⟨h1, -, -, hslice, res, hok, hact, -, htp, -, -, hprev⟩ :=
    getActions_empty_log_no_overflow emptyLogStore "r0" (some 3) none _ rfl
      rfl (by decide)
  exact ⟨h1, hslice, res, hok, hact, htp, hprev.mpr (by decide)⟩

/-- C10 witness: after "robot1" picks up "item2", putting it down removes it
from the inventory entirely. -/
theorem putdown_removes_all_witness :
    ∃ r', getRobot (putdownItem (pickupItem seedStore "robot1" "item2").1
        "robot1" "item2").1 "robot1" = some r' ∧ "item2" ∉ r'.inventory := by
  obtain ⟨-, r', hg, hnm, -, -⟩ :=
    putdown_removes_all_occurrences (pickupItem seedStore "robot1" "item2").1
      "robot1" "item2" _ rfl (by decide)
  exact ⟨r', hg, hnm⟩

end RobotAPI
